import Mathlib

/-!
A shallow embedding of the Round-Robin process scheduler from
`src/scheduler/src/schedulers/round_robin.rs`, together with theorems
settling the spec claims about it.

Machine integers (`usize`) are modelled as `Nat`; the `usize::MAX`
sentinel used by the minimum-search loop is modelled explicitly.
Rust `Vec::remove(i)` is modelled with a bounds guard (`get?` followed
by `eraseIdx`): at every index the analysed states reach, the guard
succeeds exactly when the Rust code would not panic.
-/

namespace Sched

/-- Process state, as in the crate root: `Ready`, `Running`, or
`Waiting { event: Option<usize> }` (`none` = timed sleep). -/
inductive ProcessState where
  | Ready : ProcessState
  | Running : ProcessState
  | Waiting (event : Option Nat) : ProcessState
deriving DecidableEq, Repr

/-- The `ProcessInfo` record of `round_robin.rs` (the `_extra : String`
field is constantly empty and omitted). `timings = (total, syscalls, cpu)`. -/
structure ProcessInfo where
  pid : Nat
  state : ProcessState
  timings : Nat × Nat × Nat
  priority : Int
deriving DecidableEq, Repr

instance : Inhabited ProcessInfo :=
  ⟨{ pid := 0, state := ProcessState.Ready, timings := (0, 0, 0), priority := 0 }⟩

/-- The `Syscall` enum of the crate root, as used by `round_robin.rs`. -/
inductive Syscall where
  | Fork (priority : Int) : Syscall
  | Sleep (amount : Nat) : Syscall
  | Wait (event : Nat) : Syscall
  | Signal (event : Nat) : Syscall
  | Exit : Syscall
deriving DecidableEq, Repr

/-- The `StopReason` enum: a syscall carrying the remaining quantum, or expiry. -/
inductive StopReason where
  | Syscall (syscall : Syscall) (remaining : Nat) : StopReason
  | Expired : StopReason
deriving DecidableEq, Repr

/-- The `SchedulingDecision` enum. `Run`'s and `Sleep`'s `NonZeroUsize`
payloads are modelled as `Nat`. -/
inductive SchedulingDecision where
  | Run (pid : Nat) (timeslice : Nat) : SchedulingDecision
  | Sleep (amount : Nat) : SchedulingDecision
  | Deadlock : SchedulingDecision
  | Panic : SchedulingDecision
  | Done : SchedulingDecision
deriving DecidableEq, Repr

/-- The `SyscallResult` enum. -/
inductive SyscallResult where
  | Pid (pid : Nat) : SyscallResult
  | Success : SyscallResult
  | NoRunningProcess : SyscallResult
deriving DecidableEq, Repr

/-- The `RoundRobin` scheduler state, field for field as in the source. -/
structure RoundRobin where
  timeslice : Nat
  minimum_remaining_timeslice : Nat
  ready : List ProcessInfo
  wait : List ProcessInfo
  pid_counter : Nat
  running_process : Option ProcessInfo
  remaining_running_time : Nat
  init : Bool
  sleep_amounts : List Nat
  sleep : Nat
deriving DecidableEq, Repr

/-- Value of `std::usize::MAX`, the sentinel initialising the minimum search. -/
def usizeMax : Nat := 2 ^ 64 - 1

namespace RoundRobin

/-- `RoundRobin::new`. -/
def new (timeslice minimum_remaining_timeslice : Nat) : RoundRobin :=
  { timeslice := timeslice
    minimum_remaining_timeslice := minimum_remaining_timeslice
    ready := []
    wait := []
    pid_counter := 1
    running_process := none
    remaining_running_time := timeslice
    init := false
    sleep_amounts := []
    sleep := 0 }

/-- `RoundRobin::generate_pid`: hand out `pid_counter` and increment it. -/
def generate_pid (s : RoundRobin) : Nat × RoundRobin :=
  (s.pid_counter, { s with pid_counter := s.pid_counter + 1 })

end RoundRobin

/-- Add `amount` to a record's wall-clock (`timings.0 += amount`). -/
def chargeTotal (amount : Nat) (p : ProcessInfo) : ProcessInfo :=
  { p with timings := (p.timings.1 + amount, p.timings.2.1, p.timings.2.2) }

/-- The saturating sleep-ledger decrement of `increase_timings`:
`if *sleep < amount { *sleep = 0 } else { *sleep -= amount }`. -/
def decSleep (amount a : Nat) : Nat :=
  if a < amount then 0 else a - amount

/-- Does a record hold state `Waiting { event: None }` (a timed sleeper)? -/
def isTimedSleeper (p : ProcessInfo) : Bool :=
  match p.state with
  | ProcessState.Waiting none => true
  | _ => false

/-- Indices (counting from `i`) of the zero entries of a ledger; embeds the
`zero_amount_indices` collection loop of `increase_timings`. -/
def zeroIdxFrom : Nat → List Nat → List Nat
  | _, [] => []
  | i, a :: rest =>
    if a = 0 then i :: zeroIdxFrom (i + 1) rest else zeroIdxFrom (i + 1) rest

/-- Indices (counting from `i`) of the timed sleepers of a wait queue; embeds
the `proc_amount_indices` collection loop of `increase_timings`. -/
def timedIdxFrom : Nat → List ProcessInfo → List Nat
  | _, [] => []
  | i, p :: rest =>
    if isTimedSleeper p then i :: timedIdxFrom (i + 1) rest
    else timedIdxFrom (i + 1) rest

namespace RoundRobin

/-- One iteration of the wake-up loop of `increase_timings`: look up the
`new_index`-th entry of the pre-computed `proc_amount_indices`, remove that
wait-queue slot and the `new_index`-th ledger entry, and push the removed
record (marked `Ready`) onto the ready queue. -/
def wakeStep (procIdxs : List Nat) (s : RoundRobin) (iter i : Nat) : RoundRobin :=
  match procIdxs[i - iter]? with
  | some index =>
    match s.wait[index]? with
    | some proc =>
      { s with
        wait := s.wait.eraseIdx index
        sleep_amounts := s.sleep_amounts.eraseIdx (i - iter)
        ready := s.ready ++ [{ proc with state := ProcessState.Ready }] }
    | none => s
  | none => s

/-- The wake-up loop of `increase_timings`, iterating `(iter, i)` over the
enumerated `zero_amount_indices`. -/
def wakeFrom (procIdxs : List Nat) : Nat → List Nat → RoundRobin → RoundRobin
  | _, [], s => s
  | iter, i :: rest, s => wakeFrom procIdxs (iter + 1) rest (wakeStep procIdxs s iter i)

/-- `RoundRobin::increase_timings`: charge `amount` of wall-clock to every
ready and waiting record, decrement the sleep ledger (floored at zero), then
run the wake-up loop over the entries that reached zero. -/
def increase_timings (s : RoundRobin) (amount : Nat) : RoundRobin :=
  let s1 : RoundRobin :=
    { s with
      ready := s.ready.map (chargeTotal amount)
      wait := s.wait.map (chargeTotal amount)
      sleep_amounts := s.sleep_amounts.map (decSleep amount) }
  wakeFrom (timedIdxFrom 0 s1.wait) 0 (zeroIdxFrom 0 s1.sleep_amounts) s1

end RoundRobin

/-- The minimum-search loop of `next`'s sleep branch: fold over the ledger
(with indices from `i`) keeping `(min_amount, min_index)`, strict `<` so the
first occurrence of the minimum wins. -/
def minFrom : Nat → Nat × Nat → List Nat → Nat × Nat
  | _, acc, [] => acc
  | i, acc, a :: rest =>
    minFrom (i + 1) (if a < acc.1 then (a, i) else acc) rest

/-- The search for `target_wait_index`: walk the wait queue (absolute index
`i`, timed-sleeper counter `waitIdx`) until the `minIdx`-th timed sleeper is
found; like the source loop, it leaves the initial value `0` if none is. -/
def targetFrom (minIdx : Nat) : Nat → Nat → List ProcessInfo → Nat
  | _, _, [] => 0
  | i, waitIdx, p :: rest =>
    if isTimedSleeper p then
      if waitIdx = minIdx then i else targetFrom minIdx (i + 1) (waitIdx + 1) rest
    else targetFrom minIdx (i + 1) waitIdx rest

/-- Indices (counting from `i`) of the records waiting on event `e`; embeds
the `procs_to_ready` collection loop of the `Signal` branch of `stop`. -/
def eventIdxFrom (e : Nat) : Nat → List ProcessInfo → List Nat
  | _, [] => []
  | i, p :: rest =>
    match p.state with
    | ProcessState.Waiting (some e2) =>
      if e2 = e then i :: eventIdxFrom e (i + 1) rest else eventIdxFrom e (i + 1) rest
    | _ => eventIdxFrom e (i + 1) rest

namespace RoundRobin

/-- The removal loop of the `Signal` branch: remove the collected waiters
(compensating indices by the number already removed), mark them `Ready`, and
push them onto the ready queue. -/
def signalFrom : Nat → List Nat → RoundRobin → RoundRobin
  | _, [], s => s
  | iter, i :: rest, s =>
    match s.wait[i - iter]? with
    | some proc =>
      signalFrom (iter + 1) rest
        { s with
          wait := s.wait.eraseIdx (i - iter)
          ready := s.ready ++ [{ proc with state := ProcessState.Ready }] }
    | none => signalFrom (iter + 1) rest s

/-- The body of `Scheduler::next` after its two preamble lines
(`increase_timings(sleep); sleep = 0`): rule 1 (running slot), rule 2 (ready
queue, after the panic check), then the done / panic / deadlock / sleep
decisions over the wait queue. -/
def nextBody (s : RoundRobin) : SchedulingDecision × RoundRobin :=
  match s.running_process with
  | some rp =>
    if s.remaining_running_time < s.minimum_remaining_timeslice then
      match s.ready ++ [{ rp with state := ProcessState.Ready }] with
      | [] => (SchedulingDecision.Done, s)
      | proc :: rest =>
        let proc := { proc with state := ProcessState.Running }
        (SchedulingDecision.Run proc.pid s.timeslice,
         { s with
           running_process := some proc
           ready := rest
           remaining_running_time := s.timeslice })
    else
      (SchedulingDecision.Run rp.pid s.remaining_running_time,
       { s with running_process := some rp })
  | none =>
    match s.ready with
    | proc :: rest =>
      if s.init then
        (SchedulingDecision.Panic, { s with init := false, running_process := none })
      else
        let proc := { proc with state := ProcessState.Running }
        (SchedulingDecision.Run proc.pid s.timeslice,
         { s with running_process := some proc, ready := rest })
    | [] =>
      if s.wait.isEmpty then
        (SchedulingDecision.Done, { s with running_process := none })
      else if s.init then
        (SchedulingDecision.Panic, { s with init := false, running_process := none })
      else if s.wait.all (fun p => ! isTimedSleeper p) then
        (SchedulingDecision.Deadlock, { s with running_process := none })
      else
        let ma := minFrom 0 (usizeMax, 0) s.sleep_amounts
        let ledger := s.sleep_amounts.eraseIdx ma.2
        let t := targetFrom ma.2 0 0 s.wait
        match s.wait[t]? with
        | some proc =>
          (SchedulingDecision.Sleep ma.1,
           { s with
             running_process := none
             sleep_amounts := ledger
             wait := s.wait.eraseIdx t
             ready := s.ready ++ [proc]
             sleep := ma.1 })
        | none => (SchedulingDecision.Done, { s with running_process := none })

/-- `Scheduler::next` for `RoundRobin`: charge the deferred sleep amount to
all timings, zero it, then run the decision body. -/
def next (s : RoundRobin) : SchedulingDecision × RoundRobin :=
  nextBody { s.increase_timings s.sleep with sleep := 0 }

/-- `Scheduler::stop` for `RoundRobin`, returning the syscall result and the
post-call state. -/
def stop (s : RoundRobin) (reason : StopReason) : SyscallResult × RoundRobin :=
  match reason with
  | StopReason.Syscall sc remaining =>
    match sc with
    | Syscall.Fork priority =>
      let s := s.increase_timings (s.remaining_running_time - remaining)
      let pr := s.generate_pid
      let s := pr.2
      let newProc : ProcessInfo :=
        { pid := pr.1, state := ProcessState.Ready, timings := (0, 0, 0), priority := priority }
      let s := { s with ready := s.ready ++ [newProc] }
      match s.running_process with
      | some rp =>
        let rp :=
          { rp with
            timings :=
              (rp.timings.1 + (s.remaining_running_time - remaining),
               rp.timings.2.1 + 1,
               rp.timings.2.2 + (s.remaining_running_time - remaining - 1)) }
        (SyscallResult.Pid newProc.pid,
         { s with remaining_running_time := remaining, running_process := some rp })
      | none => (SyscallResult.Pid newProc.pid, s)
    | Syscall.Sleep amount =>
      let s := s.increase_timings (s.remaining_running_time - remaining)
      let s :=
        match s.running_process with
        | some rp =>
          let rp :=
            { rp with
              state := ProcessState.Waiting none
              timings :=
                (rp.timings.1 + (s.remaining_running_time - remaining),
                 rp.timings.2.1 + 1,
                 rp.timings.2.2 + (s.remaining_running_time - remaining - 1)) }
          { s with wait := s.wait ++ [rp], sleep_amounts := s.sleep_amounts ++ [amount] }
        | none => s
      (SyscallResult.Success,
       { s with remaining_running_time := s.timeslice, running_process := none })
    | Syscall.Wait e =>
      let s := s.increase_timings (s.remaining_running_time - remaining)
      let s :=
        match s.running_process with
        | some rp =>
          let rp :=
            { rp with
              state := ProcessState.Waiting (some e)
              timings :=
                (rp.timings.1 + (s.remaining_running_time - remaining),
                 rp.timings.2.1 + 1,
                 rp.timings.2.2 + (s.remaining_running_time - remaining - 1)) }
          { s with wait := s.wait ++ [rp] }
        | none => s
      (SyscallResult.Success,
       { s with remaining_running_time := s.timeslice, running_process := none })
    | Syscall.Signal e =>
      let s := s.increase_timings (s.remaining_running_time - remaining)
      let s := signalFrom 0 (eventIdxFrom e 0 s.wait) s
      match s.running_process with
      | some rp =>
        let rp :=
          { rp with
            timings :=
              (rp.timings.1 + (s.remaining_running_time - remaining),
               rp.timings.2.1 + 1,
               rp.timings.2.2 + (s.remaining_running_time - remaining - 1)) }
        (SyscallResult.Success,
         { s with remaining_running_time := remaining, running_process := some rp })
      | none => (SyscallResult.Success, s)
    | Syscall.Exit =>
      let s := s.increase_timings (s.remaining_running_time - remaining)
      let s :=
        match s.running_process with
        | some rp => if rp.pid = 1 then { s with init := true } else s
        | none => s
      (SyscallResult.Success,
       { s with remaining_running_time := s.timeslice, running_process := none })
  | StopReason.Expired =>
    let s := s.increase_timings s.remaining_running_time
    let s :=
      match s.running_process with
      | some rp =>
        let rp :=
          { rp with
            state := ProcessState.Ready
            timings :=
              (rp.timings.1 + s.remaining_running_time,
               rp.timings.2.1,
               rp.timings.2.2 + s.remaining_running_time) }
        { s with ready := s.ready ++ [rp] }
      | none => s
    (SyscallResult.Success,
     { s with running_process := none, remaining_running_time := s.timeslice })

/-- `Scheduler::list` for `RoundRobin`: ready queue, then wait queue, then the
running slot. -/
def list (s : RoundRobin) : List ProcessInfo :=
  s.ready ++ s.wait ++ s.running_process.toList

end RoundRobin

/-- Observation: the `(pid, total)` pair of a record. -/
def pidTotal (p : ProcessInfo) : Nat × Nat := (p.pid, p.timings.1)

/-- Observation: the multiset of `(pid, total)` pairs over all live records
(ready, wait, and the running slot). -/
def liveMS (s : RoundRobin) : Multiset (Nat × Nat) :=
  ((s.ready ++ s.wait ++ s.running_process.toList).map pidTotal : List (Nat × Nat))

/-- Observation: the multiset of `(pid, total)` pairs over the ready and wait
queues only. -/
def rwMS (s : RoundRobin) : Multiset (Nat × Nat) :=
  ((s.ready ++ s.wait).map pidTotal : List (Nat × Nat))

/-- Add `u` to the total component of a `(pid, total)` pair. -/
def bumpTotal (u : Nat) (q : Nat × Nat) : Nat × Nat := (q.1, q.2 + u)

/-- A concrete mid-run state: PID 2 in ready with wall-clock 5, PID 1 running
with timings `(6, 1, 2)`, a fresh quantum of 10, threshold 2. -/
def demoState : RoundRobin :=
  { timeslice := 10
    minimum_remaining_timeslice := 2
    ready := [{ pid := 2, state := ProcessState.Ready, timings := (5, 0, 0), priority := 0 }]
    wait := []
    pid_counter := 3
    running_process :=
      some { pid := 1, state := ProcessState.Running, timings := (6, 1, 2), priority := 0 }
    remaining_running_time := 10
    init := false
    sleep_amounts := []
    sleep := 0 }

/-- A concrete host trace for the wake-up loop defect: scheduler `new(10, 1)`,
PID 1 forked by the host, PID 1 forks PIDs 2, 3, 4 and expires; PID 2 sleeps
12, PID 3 waits on event 5, PID 4 sleeps 10 (each one unit into its quantum);
PID 1 then runs a full quantum and expires, charging 10 time units, which
floors both remaining ledger entries (both 10) to zero at once. -/
def c3Trace : RoundRobin :=
  let s := RoundRobin.new 10 1
  let s := (s.stop (StopReason.Syscall (Syscall.Fork 0) 10)).2
  let s := (s.next).2
  let s := (s.stop (StopReason.Syscall (Syscall.Fork 0) 9)).2
  let s := (s.stop (StopReason.Syscall (Syscall.Fork 0) 8)).2
  let s := (s.stop (StopReason.Syscall (Syscall.Fork 0) 7)).2
  let s := (s.stop StopReason.Expired).2
  let s := (s.next).2
  let s := (s.stop (StopReason.Syscall (Syscall.Sleep 12) 9)).2
  let s := (s.next).2
  let s := (s.stop (StopReason.Syscall (Syscall.Wait 5) 9)).2
  let s := (s.next).2
  let s := (s.stop (StopReason.Syscall (Syscall.Sleep 10) 9)).2
  let s := (s.next).2
  (s.stop StopReason.Expired).2

/-- A concrete host trace reaching a state where PID 1 has exited while PID 2
is still in the ready queue: scheduler `new(5, 2)`, PID 1 forked by the host,
scheduled, forks PID 2, then exits. -/
def c5State : RoundRobin :=
  let s := RoundRobin.new 5 2
  let s := (s.stop (StopReason.Syscall (Syscall.Fork 0) 5)).2
  let s := (s.next).2
  let s := (s.stop (StopReason.Syscall (Syscall.Fork 0) 4)).2
  (s.stop (StopReason.Syscall Syscall.Exit 4)).2

/-- A concrete host trace reaching a state where PID 1 has exited while PID 2
is a timed sleeper: scheduler `new(5, 1)`, PID 1 forked by the host, runs and
forks PID 2, expires; PID 2 runs and sleeps 9; PID 1 runs and exits. -/
def c7State : RoundRobin :=
  let s := RoundRobin.new 5 1
  let s := (s.stop (StopReason.Syscall (Syscall.Fork 0) 5)).2
  let s := (s.next).2
  let s := (s.stop (StopReason.Syscall (Syscall.Fork 0) 4)).2
  let s := (s.stop StopReason.Expired).2
  let s := (s.next).2
  let s := (s.stop (StopReason.Syscall (Syscall.Sleep 9) 4)).2
  let s := (s.next).2
  (s.stop (StopReason.Syscall Syscall.Exit 4)).2

/-- A concrete state for the sleep branch: one timed sleeper in wait with a
ledger entry of 3, nothing ready, nothing running. -/
def sleepDemoState : RoundRobin :=
  { timeslice := 5
    minimum_remaining_timeslice := 1
    ready := []
    wait := [{ pid := 2, state := ProcessState.Waiting none, timings := (4, 1, 0), priority := 0 }]
    pid_counter := 3
    running_process := none
    remaining_running_time := 5
    init := false
    sleep_amounts := [3]
    sleep := 0 }

/-- A concrete state for the init-panic precedence check: PID 1 has exited
(init flag set) while PID 2 blocks on event 7, nothing ready, nothing
running. -/
def c6State : RoundRobin :=
  { timeslice := 5
    minimum_remaining_timeslice := 1
    ready := []
    wait := [{ pid := 2, state := ProcessState.Waiting (some 7), timings := (3, 1, 0), priority := 0 }]
    pid_counter := 3
    running_process := none
    remaining_running_time := 5
    init := true
    sleep_amounts := []
    sleep := 0 }

/-- States reachable from a freshly constructed scheduler through any
sequence of `next` and `stop` calls. -/
inductive Reachable : RoundRobin → Prop where
  | start : ∀ t m, Reachable (RoundRobin.new t m)
  | step_next : ∀ s, Reachable s → Reachable (s.next).2
  | step_stop : ∀ s r, Reachable s → Reachable (s.stop r).2

namespace RoundRobin

theorem wakeStep_preserves (procIdxs : List Nat) (s : RoundRobin) (iter i : Nat) :
    (wakeStep procIdxs s iter i).running_process = s.running_process ∧
    (wakeStep procIdxs s iter i).init = s.init ∧
    (wakeStep procIdxs s iter i).pid_counter = s.pid_counter ∧
    (wakeStep procIdxs s iter i).remaining_running_time = s.remaining_running_time ∧
    (wakeStep procIdxs s iter i).timeslice = s.timeslice ∧
    (wakeStep procIdxs s iter i).minimum_remaining_timeslice = s.minimum_remaining_timeslice ∧
    (wakeStep procIdxs s iter i).sleep = s.sleep := by
  cases h1 : procIdxs[i - iter]? with
  | none => simp [wakeStep, h1]
  | some index =>
    cases h2 : s.wait[index]? with
    | none => simp [wakeStep, h1, h2]
    | some proc => simp [wakeStep, h1, h2]

theorem wakeFrom_preserves (procIdxs : List Nat) :
    ∀ (zs : List Nat) (iter : Nat) (s : RoundRobin),
    (wakeFrom procIdxs iter zs s).running_process = s.running_process ∧
    (wakeFrom procIdxs iter zs s).init = s.init ∧
    (wakeFrom procIdxs iter zs s).pid_counter = s.pid_counter ∧
    (wakeFrom procIdxs iter zs s).remaining_running_time = s.remaining_running_time ∧
    (wakeFrom procIdxs iter zs s).timeslice = s.timeslice ∧
    (wakeFrom procIdxs iter zs s).minimum_remaining_timeslice = s.minimum_remaining_timeslice ∧
    (wakeFrom procIdxs iter zs s).sleep = s.sleep := by
  intro zs
  induction zs with
  | nil => exact fun iter s => ⟨rfl, rfl, rfl, rfl, rfl, rfl, rfl⟩
  | cons i rest ih =>
    intro iter s
    have h1 := wakeStep_preserves procIdxs s iter i
    have h2 := ih (iter + 1) (wakeStep procIdxs s iter i)
    exact ⟨h2.1.trans h1.1, h2.2.1.trans h1.2.1, h2.2.2.1.trans h1.2.2.1,
      h2.2.2.2.1.trans h1.2.2.2.1, h2.2.2.2.2.1.trans h1.2.2.2.2.1,
      h2.2.2.2.2.2.1.trans h1.2.2.2.2.2.1, h2.2.2.2.2.2.2.trans h1.2.2.2.2.2.2⟩

@[simp] theorem increase_timings_running_process (s : RoundRobin) (a : Nat) :
    (s.increase_timings a).running_process = s.running_process :=
  (wakeFrom_preserves _ _ _ _).1

@[simp] theorem increase_timings_init (s : RoundRobin) (a : Nat) :
    (s.increase_timings a).init = s.init :=
  (wakeFrom_preserves _ _ _ _).2.1

@[simp] theorem increase_timings_pid_counter (s : RoundRobin) (a : Nat) :
    (s.increase_timings a).pid_counter = s.pid_counter :=
  (wakeFrom_preserves _ _ _ _).2.2.1

@[simp] theorem increase_timings_remaining (s : RoundRobin) (a : Nat) :
    (s.increase_timings a).remaining_running_time = s.remaining_running_time :=
  (wakeFrom_preserves _ _ _ _).2.2.2.1

@[simp] theorem increase_timings_timeslice (s : RoundRobin) (a : Nat) :
    (s.increase_timings a).timeslice = s.timeslice :=
  (wakeFrom_preserves _ _ _ _).2.2.2.2.1

@[simp] theorem increase_timings_minimum (s : RoundRobin) (a : Nat) :
    (s.increase_timings a).minimum_remaining_timeslice = s.minimum_remaining_timeslice :=
  (wakeFrom_preserves _ _ _ _).2.2.2.2.2.1

@[simp] theorem increase_timings_sleep (s : RoundRobin) (a : Nat) :
    (s.increase_timings a).sleep = s.sleep :=
  (wakeFrom_preserves _ _ _ _).2.2.2.2.2.2

theorem signalFrom_preserves :
    ∀ (zs : List Nat) (iter : Nat) (s : RoundRobin),
    (signalFrom iter zs s).running_process = s.running_process ∧
    (signalFrom iter zs s).init = s.init ∧
    (signalFrom iter zs s).pid_counter = s.pid_counter ∧
    (signalFrom iter zs s).remaining_running_time = s.remaining_running_time ∧
    (signalFrom iter zs s).timeslice = s.timeslice ∧
    (signalFrom iter zs s).minimum_remaining_timeslice = s.minimum_remaining_timeslice ∧
    (signalFrom iter zs s).sleep = s.sleep ∧
    (signalFrom iter zs s).sleep_amounts = s.sleep_amounts := by
  intro zs
  induction zs with
  | nil => exact fun iter s => ⟨rfl, rfl, rfl, rfl, rfl, rfl, rfl, rfl⟩
  | cons i rest ih =>
    intro iter s
    cases h1 : s.wait[i - iter]? with
    | none => simpa only [signalFrom, h1] using ih (iter + 1) s
    | some proc => simpa only [signalFrom, h1] using ih (iter + 1) _

end RoundRobin

@[simp] theorem chargeTotal_zero (p : ProcessInfo) : chargeTotal 0 p = p := rfl

theorem map_chargeTotal_zero (l : List ProcessInfo) : l.map (chargeTotal 0) = l := by
  induction l with
  | nil => rfl
  | cons p rest ih => simp [ih]

@[simp] theorem decSleep_zero (a : Nat) : decSleep 0 a = a := by
  simp [decSleep]

theorem map_decSleep_zero (l : List Nat) : l.map (decSleep 0) = l := by
  induction l with
  | nil => rfl
  | cons a rest ih => simp [ih]

@[simp] theorem isTimedSleeper_chargeTotal (a : Nat) (p : ProcessInfo) :
    isTimedSleeper (chargeTotal a p) = isTimedSleeper p := rfl

theorem zeroIdxFrom_eq_nil {l : List Nat} (h : ∀ a ∈ l, a ≠ 0) :
    ∀ i, zeroIdxFrom i l = [] := by
  induction l with
  | nil => intro i; rfl
  | cons a rest ih =>
    intro i
    have ha : a ≠ 0 := h a (by simp)
    simp only [zeroIdxFrom, if_neg ha]
    exact ih (fun b hb => h b (by simp [hb])) (i + 1)

theorem timedIdxFrom_eq_nil {w : List ProcessInfo}
    (h : ∀ p ∈ w, isTimedSleeper p = false) : ∀ i, timedIdxFrom i w = [] := by
  induction w with
  | nil => intro i; rfl
  | cons p rest ih =>
    intro i
    have hp : isTimedSleeper p = false := h p (by simp)
    simp only [timedIdxFrom, hp, Bool.false_eq_true, if_false]
    exact ih (fun q hq => h q (by simp [hq])) (i + 1)

namespace RoundRobin

theorem wakeFrom_procIdxs_nil : ∀ (zs : List Nat) (iter : Nat) (s : RoundRobin),
    wakeFrom [] iter zs s = s := by
  intro zs
  induction zs with
  | nil => intro iter s; rfl
  | cons i rest ih =>
    intro iter s
    have hstep : wakeStep [] s iter i = s := by
      simp [wakeStep]
    simp only [wakeFrom, hstep]
    exact ih (iter + 1) s

theorem increase_timings_zero_of_nozero (s : RoundRobin)
    (h : ∀ a ∈ s.sleep_amounts, a ≠ 0) : s.increase_timings 0 = s := by
  unfold increase_timings
  simp only [map_chargeTotal_zero, map_decSleep_zero]
  rw [zeroIdxFrom_eq_nil h]
  rfl

theorem increase_timings_zero_of_nosleeper (s : RoundRobin)
    (h : ∀ p ∈ s.wait, isTimedSleeper p = false) : s.increase_timings 0 = s := by
  unfold increase_timings
  simp only [map_chargeTotal_zero, map_decSleep_zero]
  rw [timedIdxFrom_eq_nil h, wakeFrom_procIdxs_nil]

theorem wakeStep_length (procIdxs : List Nat) (s : RoundRobin) (iter i : Nat) :
    (wakeStep procIdxs s iter i).ready.length + (wakeStep procIdxs s iter i).wait.length =
      s.ready.length + s.wait.length := by
  cases h1 : procIdxs[i - iter]? with
  | none => simp [wakeStep, h1]
  | some index =>
    cases h2 : s.wait[index]? with
    | none => simp [wakeStep, h1, h2]
    | some proc =>
      have hlt : index < s.wait.length := by
        have := List.getElem?_eq_some_iff.mp h2
        exact this.1
      simp [wakeStep, h1, h2, List.length_eraseIdx, hlt]
      omega

theorem wakeFrom_length (procIdxs : List Nat) :
    ∀ (zs : List Nat) (iter : Nat) (s : RoundRobin),
    (wakeFrom procIdxs iter zs s).ready.length + (wakeFrom procIdxs iter zs s).wait.length =
      s.ready.length + s.wait.length := by
  intro zs
  induction zs with
  | nil => intro iter s; rfl
  | cons i rest ih =>
    intro iter s
    simp only [wakeFrom]
    exact (ih (iter + 1) _).trans (wakeStep_length procIdxs s iter i)

theorem increase_timings_length (s : RoundRobin) (a : Nat) :
    (s.increase_timings a).ready.length + (s.increase_timings a).wait.length =
      s.ready.length + s.wait.length := by
  unfold increase_timings
  rw [wakeFrom_length]
  simp

end RoundRobin

theorem coe_map_eraseIdx {α β : Type} (f : α → β) :
    ∀ (l : List α) (i : Nat) (x : α), l[i]? = some x →
    ((l.map f : List β) : Multiset β) = f x ::ₘ (((l.eraseIdx i).map f : List β) : Multiset β) := by
  intro l
  induction l with
  | nil => intro i x h; simp at h
  | cons a rest ih =>
    intro i x h
    cases i with
    | zero =>
      simp only [List.getElem?_cons_zero, Option.some.injEq] at h
      subst h
      simp [List.eraseIdx]
    | succ n =>
      simp only [List.getElem?_cons_succ] at h
      have hr := ih n x h
      simp only [List.eraseIdx_cons_succ, List.map_cons, ← Multiset.cons_coe, hr]
      exact Multiset.cons_swap _ _ _

theorem rwMS_wakeStep (procIdxs : List Nat) (s : RoundRobin) (iter i : Nat) :
    rwMS (RoundRobin.wakeStep procIdxs s iter i) = rwMS s := by
  cases h1 : procIdxs[i - iter]? with
  | none => simp [RoundRobin.wakeStep, h1]
  | some index =>
    cases h2 : s.wait[index]? with
    | none => simp [RoundRobin.wakeStep, h1, h2]
    | some proc =>
      simp only [RoundRobin.wakeStep, h1, h2]
      unfold rwMS
      dsimp only
      have hpt : pidTotal { proc with state := ProcessState.Ready } = pidTotal proc := rfl
      simp only [List.map_append, List.map_cons, List.map_nil, ← Multiset.coe_add,
        Multiset.coe_singleton, hpt]
      rw [coe_map_eraseIdx pidTotal s.wait index proc h2, add_assoc, Multiset.singleton_add]

theorem rwMS_wakeFrom (procIdxs : List Nat) :
    ∀ (zs : List Nat) (iter : Nat) (s : RoundRobin),
    rwMS (RoundRobin.wakeFrom procIdxs iter zs s) = rwMS s := by
  intro zs
  induction zs with
  | nil => intro iter s; rfl
  | cons i rest ih =>
    intro iter s
    simp only [RoundRobin.wakeFrom]
    exact (ih (iter + 1) _).trans (rwMS_wakeStep procIdxs s iter i)

theorem rwMS_signalFrom :
    ∀ (zs : List Nat) (iter : Nat) (s : RoundRobin),
    rwMS (RoundRobin.signalFrom iter zs s) = rwMS s := by
  intro zs
  induction zs with
  | nil => intro iter s; rfl
  | cons i rest ih =>
    intro iter s
    cases h1 : s.wait[i - iter]? with
    | none =>
      simp only [RoundRobin.signalFrom, h1]
      exact ih (iter + 1) s
    | some proc =>
      simp only [RoundRobin.signalFrom, h1]
      refine (ih (iter + 1) _).trans ?_
      unfold rwMS
      dsimp only
      have hpt : pidTotal { proc with state := ProcessState.Ready } = pidTotal proc := rfl
      simp only [List.map_append, List.map_cons, List.map_nil, ← Multiset.coe_add,
        Multiset.coe_singleton, hpt]
      rw [coe_map_eraseIdx pidTotal s.wait (i - iter) proc h1, add_assoc, Multiset.singleton_add]

theorem rwMS_increase_timings (s : RoundRobin) (a : Nat) :
    rwMS (s.increase_timings a) = (rwMS s).map (bumpTotal a) := by
  unfold RoundRobin.increase_timings
  rw [rwMS_wakeFrom]
  unfold rwMS
  simp only [List.map_append, List.map_map, ← Multiset.coe_add]
  have hcomp : pidTotal ∘ chargeTotal a = bumpTotal a ∘ pidTotal := rfl
  simp [hcomp, Multiset.map_coe]

@[simp] theorem signalFrom_running_process (zs : List Nat) (iter : Nat) (s : RoundRobin) :
    (RoundRobin.signalFrom iter zs s).running_process = s.running_process :=
  (RoundRobin.signalFrom_preserves zs iter s).1

@[simp] theorem signalFrom_init (zs : List Nat) (iter : Nat) (s : RoundRobin) :
    (RoundRobin.signalFrom iter zs s).init = s.init :=
  (RoundRobin.signalFrom_preserves zs iter s).2.1

@[simp] theorem signalFrom_pid_counter (zs : List Nat) (iter : Nat) (s : RoundRobin) :
    (RoundRobin.signalFrom iter zs s).pid_counter = s.pid_counter :=
  (RoundRobin.signalFrom_preserves zs iter s).2.2.1

@[simp] theorem signalFrom_remaining (zs : List Nat) (iter : Nat) (s : RoundRobin) :
    (RoundRobin.signalFrom iter zs s).remaining_running_time = s.remaining_running_time :=
  (RoundRobin.signalFrom_preserves zs iter s).2.2.2.1

@[simp] theorem signalFrom_timeslice (zs : List Nat) (iter : Nat) (s : RoundRobin) :
    (RoundRobin.signalFrom iter zs s).timeslice = s.timeslice :=
  (RoundRobin.signalFrom_preserves zs iter s).2.2.2.2.1

@[simp] theorem signalFrom_sleep_amounts (zs : List Nat) (iter : Nat) (s : RoundRobin) :
    (RoundRobin.signalFrom iter zs s).sleep_amounts = s.sleep_amounts :=
  (RoundRobin.signalFrom_preserves zs iter s).2.2.2.2.2.2.2

theorem liveMS_some (s : RoundRobin) (p : ProcessInfo) (h : s.running_process = some p) :
    liveMS s = rwMS s + {pidTotal p} := by
  simp [liveMS, rwMS, h, List.map_append, ← Multiset.coe_add, Multiset.coe_singleton,
    add_assoc]

theorem liveMS_none (s : RoundRobin) (h : s.running_process = none) :
    liveMS s = rwMS s := by
  simp [liveMS, rwMS, h]

/-- C2 (amended): with no record in `running`, `stop` with a `Syscall` reason
never returns `NoRunningProcess`: `Fork` allocates and enqueues a fresh record
and returns `Pid pid_counter`, while `Sleep`, `Wait`, `Signal` and `Exit`
return `Success` — and in all cases timings are still charged, so the state
is not left untouched in general. -/
theorem C2_amended_no_error (s : RoundRobin) (sc : Syscall) (remaining : Nat)
    (h : s.running_process = none) :
    (s.stop (StopReason.Syscall sc remaining)).1 =
      (match sc with
       | Syscall.Fork _ => SyscallResult.Pid s.pid_counter
       | _ => SyscallResult.Success) ∧
    (s.stop (StopReason.Syscall sc remaining)).1 ≠ SyscallResult.NoRunningProcess := by
  cases sc <;>
    simp [RoundRobin.stop, RoundRobin.generate_pid, h]

/-- C2 witness: the amended theorem applied to the fresh scheduler `new(5, 2)`
and the bootstrap `Fork`. -/
theorem C2_witness :
    ((RoundRobin.new 5 2).stop (StopReason.Syscall (Syscall.Fork 0) 5)).1 =
        SyscallResult.Pid 1 ∧
    ((RoundRobin.new 5 2).stop (StopReason.Syscall (Syscall.Fork 0) 5)).1 ≠
        SyscallResult.NoRunningProcess :=
  C2_amended_no_error (RoundRobin.new 5 2) (Syscall.Fork 0) 5 rfl

theorem signal_coe_sum (zs : List Nat) (it : Nat) (u : RoundRobin) :
    ((List.map pidTotal (RoundRobin.signalFrom it zs u).ready : List (Nat × Nat)) :
        Multiset (Nat × Nat)) +
      ((List.map pidTotal (RoundRobin.signalFrom it zs u).wait : List (Nat × Nat)) :
        Multiset (Nat × Nat)) =
    ((List.map pidTotal u.ready : List (Nat × Nat)) : Multiset (Nat × Nat)) +
      ((List.map pidTotal u.wait : List (Nat × Nat)) : Multiset (Nat × Nat)) := by
  have hb := rwMS_signalFrom zs it u
  unfold rwMS at hb
  rw [List.map_append, ← Multiset.coe_add, List.map_append, ← Multiset.coe_add] at hb
  exact hb

theorem inc_coe_sum (s : RoundRobin) (a : Nat) :
    ((List.map pidTotal (s.increase_timings a).ready : List (Nat × Nat)) : Multiset (Nat × Nat)) +
        ((List.map pidTotal (s.increase_timings a).wait : List (Nat × Nat)) : Multiset (Nat × Nat)) =
      Multiset.map (bumpTotal a)
        ((List.map pidTotal (s.ready ++ s.wait) : List (Nat × Nat)) : Multiset (Nat × Nat)) := by
  have hb := rwMS_increase_timings s a
  unfold rwMS at hb
  rwa [List.map_append, ← Multiset.coe_add] at hb

/-- C1 (amended): on every syscall stop issued with a running record, the
wall-clock of every live record advances by exactly
`used = remaining_running_time − remaining` (this `used` already includes the
one time unit of the syscall instruction), witnessed on the multiset of
`(pid, total)` pairs: `Fork` additionally contributes the new record at
wall-clock 0, and `Exit` destroys the running record. -/
theorem C1_amended_wallclock_charge (s : RoundRobin) (sc : Syscall) (remaining : Nat)
    (p : ProcessInfo) (hrun : s.running_process = some p) :
    liveMS (s.stop (StopReason.Syscall sc remaining)).2 =
      (match sc with
       | Syscall.Fork _ =>
           (s.pid_counter, 0) ::ₘ
             (liveMS s).map (bumpTotal (s.remaining_running_time - remaining))
       | Syscall.Exit =>
           (rwMS s).map (bumpTotal (s.remaining_running_time - remaining))
       | _ => (liveMS s).map (bumpTotal (s.remaining_running_time - remaining))) := by
  have hsum := inc_coe_sum s (s.remaining_running_time - remaining)
  have h2 := hsum.symm
  simp only [List.map_append, ← Multiset.coe_add, Multiset.map_add, bumpTotal] at h2
  rw [liveMS_some s p hrun]
  unfold rwMS
  cases sc with
  | Fork prio =>
    simp only [RoundRobin.stop, RoundRobin.generate_pid, hrun,
      RoundRobin.increase_timings_running_process, RoundRobin.increase_timings_pid_counter,
      RoundRobin.increase_timings_remaining]
    dsimp only [liveMS]
    simp only [Option.toList_some, List.map_append, List.map_cons, List.map_nil,
      ← Multiset.coe_add, Multiset.coe_singleton, Multiset.map_add, Multiset.map_singleton,
      ← Multiset.singleton_add, bumpTotal]
    rw [h2]
    dsimp only [pidTotal]
    abel
  | Sleep n =>
    simp only [RoundRobin.stop, hrun,
      RoundRobin.increase_timings_running_process, RoundRobin.increase_timings_remaining]
    dsimp only [liveMS]
    simp only [Option.toList_none, List.append_nil, List.map_append, List.map_cons,
      List.map_nil, ← Multiset.coe_add, Multiset.coe_singleton, Multiset.map_add,
      Multiset.map_singleton, ← Multiset.singleton_add, bumpTotal]
    rw [h2]
    dsimp only [pidTotal]
    abel
  | Wait e =>
    simp only [RoundRobin.stop, hrun,
      RoundRobin.increase_timings_running_process, RoundRobin.increase_timings_remaining]
    dsimp only [liveMS]
    simp only [Option.toList_none, List.append_nil, List.map_append, List.map_cons,
      List.map_nil, ← Multiset.coe_add, Multiset.coe_singleton, Multiset.map_add,
      Multiset.map_singleton, ← Multiset.singleton_add, bumpTotal]
    rw [h2]
    dsimp only [pidTotal]
    abel
  | Signal e =>
    have h3 := signal_coe_sum (eventIdxFrom e 0
      (s.increase_timings (s.remaining_running_time - remaining)).wait) 0
      (s.increase_timings (s.remaining_running_time - remaining))
    simp only [RoundRobin.stop, hrun, signalFrom_running_process, signalFrom_remaining,
      RoundRobin.increase_timings_running_process, RoundRobin.increase_timings_remaining]
    dsimp only [liveMS]
    simp only [Option.toList_some, List.map_append, List.map_cons, List.map_nil,
      ← Multiset.coe_add, Multiset.coe_singleton, Multiset.map_add, Multiset.map_singleton,
      ← Multiset.singleton_add, bumpTotal]
    rw [show ((List.map pidTotal (RoundRobin.signalFrom 0 (eventIdxFrom e 0
        (s.increase_timings (s.remaining_running_time - remaining)).wait)
        (s.increase_timings (s.remaining_running_time - remaining))).ready :
          List (Nat × Nat)) : Multiset (Nat × Nat)) +
      ((List.map pidTotal (RoundRobin.signalFrom 0 (eventIdxFrom e 0
        (s.increase_timings (s.remaining_running_time - remaining)).wait)
        (s.increase_timings (s.remaining_running_time - remaining))).wait :
          List (Nat × Nat)) : Multiset (Nat × Nat)) =
      ((List.map pidTotal (s.increase_timings (s.remaining_running_time - remaining)).ready :
          List (Nat × Nat)) : Multiset (Nat × Nat)) +
      ((List.map pidTotal (s.increase_timings (s.remaining_running_time - remaining)).wait :
          List (Nat × Nat)) : Multiset (Nat × Nat)) from h3]
    rw [h2]
    dsimp only [pidTotal]
  | Exit =>
    simp only [RoundRobin.stop, hrun,
      RoundRobin.increase_timings_running_process, RoundRobin.increase_timings_remaining]
    dsimp only [liveMS]
    split
    all_goals
      simp only [Option.toList_none, List.append_nil, List.map_append, List.map_cons,
        List.map_nil, ← Multiset.coe_add, Multiset.coe_singleton, Multiset.map_add,
        Multiset.map_singleton, ← Multiset.singleton_add, bumpTotal]
    all_goals rw [h2]

/-- C1 witness: the amended theorem applied to `demoState` with a `Sleep`
syscall at `remaining = 7`. -/
theorem C1_witness :
    liveMS ((demoState.stop (StopReason.Syscall (Syscall.Sleep 3) 7)).2) =
      (liveMS demoState).map (bumpTotal (demoState.remaining_running_time - 7)) :=
  C1_amended_wallclock_charge demoState (Syscall.Sleep 3) 7
    { pid := 1, state := ProcessState.Running, timings := (6, 1, 2), priority := 0 } rfl

/-- C4 (amended): on every non-`Exit` syscall issued with a running record,
the running record's `syscalls` count rises by exactly 1 and its `cpu` timing
by exactly `used − 1` where `used = remaining_running_time − remaining` (the
subtracted unit is the syscall instruction, charged to wall-clock only); the
record ends in the running slot for `Fork`/`Signal` and at the tail of the
wait queue for `Sleep`/`Wait`. -/
theorem C4_amended_cpu_syscall_charge (s : RoundRobin) (p : ProcessInfo) (remaining : Nat)
    (prio : Int) (n e e2 : Nat)
    (hrun : s.running_process = some p) (hrem : remaining < s.remaining_running_time) :
    ((s.stop (StopReason.Syscall (Syscall.Fork prio) remaining)).2.running_process =
      some { p with timings :=
        (p.timings.1 + (s.remaining_running_time - remaining),
         p.timings.2.1 + 1,
         p.timings.2.2 + (s.remaining_running_time - remaining - 1)) }) ∧
    ((s.stop (StopReason.Syscall (Syscall.Signal e2) remaining)).2.running_process =
      some { p with timings :=
        (p.timings.1 + (s.remaining_running_time - remaining),
         p.timings.2.1 + 1,
         p.timings.2.2 + (s.remaining_running_time - remaining - 1)) }) ∧
    ((s.stop (StopReason.Syscall (Syscall.Sleep n) remaining)).2.wait.getLast? =
      some { p with state := ProcessState.Waiting none, timings :=
        (p.timings.1 + (s.remaining_running_time - remaining),
         p.timings.2.1 + 1,
         p.timings.2.2 + (s.remaining_running_time - remaining - 1)) }) ∧
    ((s.stop (StopReason.Syscall (Syscall.Wait e) remaining)).2.wait.getLast? =
      some { p with state := ProcessState.Waiting (some e), timings :=
        (p.timings.1 + (s.remaining_running_time - remaining),
         p.timings.2.1 + 1,
         p.timings.2.2 + (s.remaining_running_time - remaining - 1)) }) := by
  refine ⟨?_, ?_, ?_, ?_⟩ <;>
    simp [RoundRobin.stop, RoundRobin.generate_pid, hrun]

/-- C4 witness: the amended theorem applied to `demoState` with
`remaining = 7`, so `used = 3`: `syscalls` rises by 1 and `cpu` by 2. -/
theorem C4_witness :
    7 < demoState.remaining_running_time ∧
    ((demoState.stop (StopReason.Syscall (Syscall.Fork 0) 7)).2.running_process =
      some { pid := 1, state := ProcessState.Running, timings := (9, 2, 4), priority := 0 }) :=
  ⟨by decide,
    (C4_amended_cpu_syscall_charge demoState
      { pid := 1, state := ProcessState.Running, timings := (6, 1, 2), priority := 0 }
      7 0 3 4 5 rfl (by decide)).1⟩

/-- C1 counterexample. In `demoState` (a ready record with wall-clock 5, a
running record, `remaining_running_time = 10`) a `Sleep` syscall with
`remaining = 7` (so `used = 10 − 7 = 3`) raises the ready record's wall-clock
to `5 + 3`, not `5 + (3 + 1)` as the claim states. -/
theorem C1_counterexample :
    (((demoState.stop (StopReason.Syscall (Syscall.Sleep 3) 7)).2).ready.map
        (fun p => p.timings.1) = [5 + (10 - 7)]) ∧
    5 + (10 - 7) ≠ 5 + ((10 - 7) + 1) := by
  decide

/-- C2 counterexample. On a fresh `new(5, 2)` scheduler (no running process),
`stop` with a `Fork` syscall returns `Pid 1` — not `NoRunningProcess` — and
mutates the state (the new record is enqueued). -/
theorem C2_counterexample :
    ((RoundRobin.new 5 2).stop (StopReason.Syscall (Syscall.Fork 0) 5)).1 =
        SyscallResult.Pid 1 ∧
    ((RoundRobin.new 5 2).stop (StopReason.Syscall (Syscall.Fork 0) 5)).1 ≠
        SyscallResult.NoRunningProcess ∧
    ((RoundRobin.new 5 2).stop (StopReason.Syscall (Syscall.Fork 0) 5)).2 ≠
        RoundRobin.new 5 2 := by
  decide

/-- C3: evaluation of the code at the failing trace. After `c3Trace` (two
ledger entries floored to zero by one `Expired` charge, with an event waiter
between the two timed sleepers in the wait queue), the sleep ledger is empty
while one timed sleeper (PID 4) is still waiting, so the invariant
`sleep_amounts.length = |Waiting-none records in wait|` is violated; moreover
the event waiter PID 3 was spuriously woken into the ready queue. -/
theorem C3_code_bug_eval :
    c3Trace.sleep_amounts.length = 0 ∧
    (c3Trace.wait.filter isTimedSleeper).length = 1 ∧
    c3Trace.sleep_amounts.length ≠ (c3Trace.wait.filter isTimedSleeper).length ∧
    c3Trace.ready.map (fun p => p.pid) = [2, 3, 1] ∧
    c3Trace.wait.map (fun p => (p.pid, p.state)) =
      [(4, ProcessState.Waiting none)] := by
  decide

/-- C4 counterexample. In `demoState` (running record with cpu 2,
`remaining_running_time = 10`) a `Fork` syscall with `remaining = 7` (so
`used = 3`) raises the running record's cpu to `2 + (3 − 1) = 4`, not
`2 + 3` as the claim states. -/
theorem C4_counterexample :
    ((demoState.stop (StopReason.Syscall (Syscall.Fork 0) 7)).2.running_process.map
        (fun p => p.timings.2.2)) = some (2 + ((10 - 7) - 1)) ∧
    2 + ((10 - 7) - 1) ≠ 2 + (10 - 7) := by
  decide

/-- C6: if PID 1 has exited (init flag set), there is no running process, the
ready queue is empty and the wait queue holds only event-waiters (no timed
sleepers), then `next()` returns `Panic`, not `Deadlock`: the init check
precedes the deadlock check. -/
theorem C6_panic_over_deadlock (s : RoundRobin)
    (hrun : s.running_process = none) (hinit : s.init = true)
    (hready : s.ready = []) (hwait : s.wait ≠ [])
    (hevents : ∀ p ∈ s.wait, isTimedSleeper p = false) :
    (s.next).1 = SchedulingDecision.Panic := by
  have hw : s.wait.map (chargeTotal s.sleep) ≠ [] := by
    simpa using hwait
  have htimed : timedIdxFrom 0 (s.wait.map (chargeTotal s.sleep)) = [] :=
    timedIdxFrom_eq_nil
      (fun q hq => by
        rcases List.mem_map.mp hq with ⟨p0, hp0, rfl⟩
        simpa using hevents p0 hp0) 0
  unfold RoundRobin.next RoundRobin.increase_timings
  dsimp only
  rw [htimed, RoundRobin.wakeFrom_procIdxs_nil]
  cases hwm : s.wait.map (chargeTotal s.sleep) with
  | nil => exact absurd hwm hw
  | cons q qs =>
    simp [RoundRobin.nextBody, hrun, hready, hinit, hwm]

/-- C6 witness: the theorem applied to the concrete state `c6State`. -/
theorem C6_witness : (c6State.next).1 = SchedulingDecision.Panic :=
  C6_panic_over_deadlock c6State rfl rfl rfl (by decide) (by decide)

theorem preamble_eq (s : RoundRobin) (hsleep : s.sleep = 0)
    (hnz : ∀ a ∈ s.sleep_amounts, a ≠ 0) :
    ({ s.increase_timings s.sleep with sleep := 0 } : RoundRobin) = s := by
  rw [hsleep, RoundRobin.increase_timings_zero_of_nozero s hnz, ← hsleep]

/-- C8: with a running record (in a quiescent state: no pending deferred
sleep charge, no zeroed ledger entry), `next()` preempts — demoting the
running record to the tail of the ready queue and scheduling the resulting
head with a full timeslice — exactly when
`remaining_running_time < minimum_remaining_timeslice`; when
`minimum_remaining_timeslice ≤ remaining_running_time` (including equality)
the same record keeps running and `next()` returns `Run` with timeslice
`remaining_running_time`. -/
theorem C8_preemption_threshold (s : RoundRobin) (rp : ProcessInfo)
    (hrun : s.running_process = some rp) (hsleep : s.sleep = 0)
    (hnz : ∀ a ∈ s.sleep_amounts, a ≠ 0) (hpos : 0 < s.remaining_running_time) :
    (s.remaining_running_time < s.minimum_remaining_timeslice →
      s.next = (SchedulingDecision.Run
          ((s.ready ++ [{ rp with state := ProcessState.Ready }]).headI).pid s.timeslice,
        { s with
          running_process :=
            some { (s.ready ++ [{ rp with state := ProcessState.Ready }]).headI with
                     state := ProcessState.Running }
          ready := (s.ready ++ [{ rp with state := ProcessState.Ready }]).tail
          remaining_running_time := s.timeslice })) ∧
    (s.minimum_remaining_timeslice ≤ s.remaining_running_time →
      s.next = (SchedulingDecision.Run rp.pid s.remaining_running_time, s)) := by
  unfold RoundRobin.next
  rw [preamble_eq s hsleep hnz]
  constructor
  · intro hlt
    cases hq : s.ready with
    | nil =>
      simp [RoundRobin.nextBody, hrun, hlt, hq, List.headI, List.tail]
    | cons a l =>
      simp [RoundRobin.nextBody, hrun, hlt, hq, List.headI, List.tail]
  · intro hle
    have hnlt : ¬ s.remaining_running_time < s.minimum_remaining_timeslice :=
      not_lt.mpr hle
    simp only [RoundRobin.nextBody, hrun, hnlt, if_false]
    rw [show ({ s with running_process := some rp } : RoundRobin) = s from by rw [← hrun]]

/-- C8 witness: in `demoState` (`remaining_running_time = 10`, threshold 2)
the running record PID 1 keeps the CPU and `next()` returns `Run 1 10`. -/
theorem C8_witness :
    2 ≤ demoState.remaining_running_time ∧
    demoState.next = (SchedulingDecision.Run 1 10, demoState) :=
  ⟨by decide,
    (C8_preemption_threshold demoState
      { pid := 1, state := ProcessState.Running, timings := (6, 1, 2), priority := 0 }
      rfl rfl (by decide) (by decide)).2 (by decide)⟩

theorem targetFrom_lt (minIdx : Nat) :
    ∀ (w : List ProcessInfo) (i waitIdx : Nat),
      targetFrom minIdx i waitIdx w < i + w.length ∨ targetFrom minIdx i waitIdx w = 0 := by
  intro w
  induction w with
  | nil => intro i waitIdx; right; rfl
  | cons p rest ih =>
    intro i waitIdx
    simp only [targetFrom]
    by_cases ht : isTimedSleeper p
    · simp only [ht, if_true]
      by_cases hw : waitIdx = minIdx
      · simp only [hw, if_pos rfl]
        left
        simp
      · simp only [if_neg hw]
        rcases ih (i + 1) (waitIdx + 1) with hlt | h0
        · left; simp only [List.length_cons]; omega
        · right; exact h0
    · simp only [Bool.not_eq_true] at ht
      simp only [ht, Bool.false_eq_true, if_false]
      rcases ih (i + 1) waitIdx with hlt | h0
      · left; simp only [List.length_cons]; omega
      · right; exact h0

theorem nextBody_done_inv (u r : RoundRobin)
    (h : u.nextBody = (SchedulingDecision.Done, r)) :
    u.running_process = none ∧ u.ready = [] ∧ u.wait = [] ∧
      r.running_process = none ∧ r.ready = [] ∧ r.wait = [] := by
  cases hr : u.running_process with
  | some rp =>
    by_cases hlt : u.remaining_running_time < u.minimum_remaining_timeslice
    · cases hq : u.ready ++ [{ rp with state := ProcessState.Ready }] with
      | nil => exact absurd hq (by simp)
      | cons a l => simp [RoundRobin.nextBody, hr, hlt, hq] at h
    · simp [RoundRobin.nextBody, hr, hlt] at h
  | none =>
    cases hq : u.ready with
    | cons a l =>
      by_cases hi : u.init
      · simp [RoundRobin.nextBody, hr, hq, hi] at h
      · simp [RoundRobin.nextBody, hr, hq, hi] at h
    | nil =>
      by_cases hwe : u.wait.isEmpty
      · have hw : u.wait = [] := List.isEmpty_iff.mp hwe
        simp only [RoundRobin.nextBody, hr, hq, hwe, if_true] at h
        obtain ⟨-, h2⟩ := Prod.mk.injEq _ _ _ _ |>.mp h
        subst h2
        exact ⟨rfl, rfl, hw, rfl, rfl, hw⟩
      · by_cases hi : u.init
        · simp [RoundRobin.nextBody, hr, hq, hwe, hi] at h
        · by_cases hd : u.wait.all (fun p => ! isTimedSleeper p)
          · simp [RoundRobin.nextBody, hr, hq, hwe, hi, hd] at h
          · exfalso
            have hwne : u.wait ≠ [] := fun hnil => hwe (by simp [hnil])
            have htlt : targetFrom (minFrom 0 (usizeMax, 0) u.sleep_amounts).2 0 0 u.wait <
                u.wait.length := by
              rcases targetFrom_lt (minFrom 0 (usizeMax, 0) u.sleep_amounts).2 u.wait 0 0 with
                hlt | h0
              · simpa using hlt
              · rw [h0]
                exact List.length_pos.mpr hwne
            cases hg : u.wait[targetFrom (minFrom 0 (usizeMax, 0) u.sleep_amounts).2 0 0 u.wait]? with
            | some proc =>
              simp [RoundRobin.nextBody, hr, hq, hwe, hi, hd, hg] at h
            | none =>
              rw [List.getElem?_eq_none_iff] at hg
              omega

theorem nextBody_deadlock_inv (u r : RoundRobin)
    (h : u.nextBody = (SchedulingDecision.Deadlock, r)) :
    u.running_process = none ∧ u.ready = [] ∧ u.wait ≠ [] ∧ u.init = false ∧
      (∀ p ∈ u.wait, isTimedSleeper p = false) ∧
      r.running_process = none ∧ r.ready = [] ∧ r.wait = u.wait ∧ r.init = false := by
  cases hr : u.running_process with
  | some rp =>
    by_cases hlt : u.remaining_running_time < u.minimum_remaining_timeslice
    · cases hq : u.ready ++ [{ rp with state := ProcessState.Ready }] with
      | nil => exact absurd hq (by simp)
      | cons a l => simp [RoundRobin.nextBody, hr, hlt, hq] at h
    · simp [RoundRobin.nextBody, hr, hlt] at h
  | none =>
    cases hq : u.ready with
    | cons a l =>
      by_cases hi : u.init
      · simp [RoundRobin.nextBody, hr, hq, hi] at h
      · simp [RoundRobin.nextBody, hr, hq, hi] at h
    | nil =>
      by_cases hwe : u.wait.isEmpty
      · simp [RoundRobin.nextBody, hr, hq, hwe] at h
      · by_cases hi : u.init
        · simp [RoundRobin.nextBody, hr, hq, hwe, hi] at h
        · by_cases hd : u.wait.all (fun p => ! isTimedSleeper p)
          · have hif : u.init = false := by simpa using hi
            simp only [RoundRobin.nextBody, hr, hq, hwe, hif, Bool.false_eq_true, if_false,
              hd, if_true] at h
            obtain ⟨-, h2⟩ := Prod.mk.injEq _ _ _ _ |>.mp h
            subst h2
            refine ⟨rfl, rfl, fun hnil => hwe (by simp [hnil]), hif, ?_, rfl, rfl, rfl, rfl⟩
            intro p hp
            have := List.all_eq_true.mp hd p hp
            simpa using this
          · cases hg : u.wait[targetFrom
                (minFrom 0 (usizeMax, 0) u.sleep_amounts).2 0 0 u.wait]? with
            | some proc =>
              simp [RoundRobin.nextBody, hr, hq, hwe, hi, hd, hg] at h
            | none =>
              simp [RoundRobin.nextBody, hr, hq, hwe, hi, hd, hg] at h

theorem nextBody_done_of (u : RoundRobin) (h1 : u.running_process = none)
    (h2 : u.ready = []) (h3 : u.wait = []) :
    u.nextBody = (SchedulingDecision.Done, { u with running_process := none }) := by
  simp [RoundRobin.nextBody, h1, h2, h3]

theorem nextBody_deadlock_of (u : RoundRobin) (h1 : u.running_process = none)
    (h2 : u.ready = []) (h3 : u.wait ≠ []) (h4 : u.init = false)
    (h5 : ∀ p ∈ u.wait, isTimedSleeper p = false) :
    u.nextBody = (SchedulingDecision.Deadlock, { u with running_process := none }) := by
  have hwe : u.wait.isEmpty = false := by
    cases hw : u.wait with
    | nil => exact absurd hw h3
    | cons a l => rfl
  have hd : u.wait.all (fun p => ! isTimedSleeper p) = true :=
    List.all_eq_true.mpr (fun p hp => by simp [h5 p hp])
  simp [RoundRobin.nextBody, h1, h2, hwe, h4, hd]

theorem increase_timings_empty (r : RoundRobin) (a : Nat)
    (h2 : r.ready = []) (h3 : r.wait = []) :
    r.increase_timings a =
      { r with sleep_amounts := r.sleep_amounts.map (decSleep a) } := by
  obtain ⟨ts, mrt, rd, wt, pc, runp, rrt, ini, sa, sl⟩ := r
  dsimp at h2 h3
  subst h2
  subst h3
  unfold RoundRobin.increase_timings
  dsimp only [List.map_nil]
  rw [show timedIdxFrom 0 ([] : List ProcessInfo) = [] from rfl,
    RoundRobin.wakeFrom_procIdxs_nil]

theorem increase_timings_no_sleeper (r : RoundRobin) (a : Nat)
    (h : ∀ p ∈ r.wait, isTimedSleeper p = false) :
    r.increase_timings a =
      { r with
        ready := r.ready.map (chargeTotal a)
        wait := r.wait.map (chargeTotal a)
        sleep_amounts := r.sleep_amounts.map (decSleep a) } := by
  unfold RoundRobin.increase_timings
  dsimp only
  rw [timedIdxFrom_eq_nil
    (fun q hq => by
      rcases List.mem_map.mp hq with ⟨p0, hp0, rfl⟩
      simpa using h p0 hp0),
    RoundRobin.wakeFrom_procIdxs_nil]

/-- C5 (amended): the terminal decisions `Done` and `Deadlock` persist — if
`next()` returns one of them, calling `next()` again on the post-call state
returns the same value. (`Panic` does not persist: the init flag is consumed,
see the counterexample.) -/
theorem C5_amended_terminals_persist (s : RoundRobin) :
    ((s.next).1 = SchedulingDecision.Done →
      ((s.next).2.next).1 = SchedulingDecision.Done) ∧
    ((s.next).1 = SchedulingDecision.Deadlock →
      ((s.next).2.next).1 = SchedulingDecision.Deadlock) := by
  constructor
  · intro h
    have heq : ({ s.increase_timings s.sleep with sleep := 0 } : RoundRobin).nextBody =
        (SchedulingDecision.Done, (s.next).2) := by
      rw [← h]
      rfl
    obtain ⟨h1, h2, h3, h4, h5, h6⟩ := nextBody_done_inv _ _ heq
    set r := (s.next).2 with hrdef
    show (r.next).1 = SchedulingDecision.Done
    rw [show r.next =
        RoundRobin.nextBody ({ r.increase_timings r.sleep with sleep := 0 } : RoundRobin)
      from rfl]
    rw [increase_timings_empty r r.sleep h5 h6]
    rw [nextBody_done_of _ (by simpa using h4) (by simpa using h5) (by simpa using h6)]
  · intro h
    have heq : ({ s.increase_timings s.sleep with sleep := 0 } : RoundRobin).nextBody =
        (SchedulingDecision.Deadlock, (s.next).2) := by
      rw [← h]
      rfl
    obtain ⟨h1, h2, h3, h4, h5, h6, h7, h8, h9⟩ := nextBody_deadlock_inv _ _ heq
    set r := (s.next).2 with hrdef
    have hev : ∀ p ∈ r.wait, isTimedSleeper p = false := by
      rw [h8]
      exact h5
    show (r.next).1 = SchedulingDecision.Deadlock
    rw [show r.next =
        RoundRobin.nextBody ({ r.increase_timings r.sleep with sleep := 0 } : RoundRobin)
      from rfl]
    rw [increase_timings_no_sleeper r r.sleep hev]
    rw [nextBody_deadlock_of _ (by simpa using h6) (by simp [h7])
      (by simp [h8]; exact h3) (by simpa using h9)
      (fun q hq => by
        rcases List.mem_map.mp hq with ⟨p0, hp0, rfl⟩
        simpa using hev p0 hp0)]

/-- C5 witness: the amended theorem applied to the empty scheduler `new(3, 1)`
(for which `next()` answers `Done`), and to the deadlocked state obtained from
`c6State` by clearing the init flag (for which `next()` answers `Deadlock`). -/
theorem C5_witness :
    (((RoundRobin.new 3 1).next).2.next).1 = SchedulingDecision.Done ∧
    ((({ c6State with init := false } : RoundRobin).next).2.next).1 =
      SchedulingDecision.Deadlock :=
  ⟨(C5_amended_terminals_persist (RoundRobin.new 3 1)).1 (by decide),
   (C5_amended_terminals_persist { c6State with init := false }).2 (by decide)⟩

theorem nextBody_preserves_inv (u : RoundRobin)
    (hu : ∀ p, u.running_process = some p → u.init = false) :
    ∀ p, (u.nextBody).2.running_process = some p → (u.nextBody).2.init = false := by
  cases hr : u.running_process with
  | some rp =>
    have hif : u.init = false := hu rp hr
    by_cases hlt : u.remaining_running_time < u.minimum_remaining_timeslice
    · cases hq : u.ready ++ [{ rp with state := ProcessState.Ready }] with
      | nil => exact absurd hq (by simp)
      | cons a l =>
        intro p _
        simpa [RoundRobin.nextBody, hr, hlt, hq] using hif
    · intro p _
      simpa [RoundRobin.nextBody, hr, hlt] using hif
  | none =>
    cases hq : u.ready with
    | cons a l =>
      by_cases hi : u.init
      · intro p hp
        simp [RoundRobin.nextBody, hr, hq, hi] at hp
      · intro p _
        simpa [RoundRobin.nextBody, hr, hq, hi] using hi
    | nil =>
      by_cases hwe : u.wait.isEmpty
      · intro p hp
        simp [RoundRobin.nextBody, hr, hq, hwe] at hp
      · by_cases hi : u.init
        · intro p hp
          simp [RoundRobin.nextBody, hr, hq, hwe, hi] at hp
        · by_cases hd : u.wait.all (fun p => ! isTimedSleeper p)
          · intro p hp
            simp [RoundRobin.nextBody, hr, hq, hwe, hi, hd] at hp
          · cases hg : u.wait[targetFrom
                (minFrom 0 (usizeMax, 0) u.sleep_amounts).2 0 0 u.wait]? with
            | some proc =>
              intro p hp
              simp [RoundRobin.nextBody, hr, hq, hwe, hi, hd, hg] at hp
            | none =>
              intro p hp
              simp [RoundRobin.nextBody, hr, hq, hwe, hi, hd, hg] at hp

theorem stop_preserves_inv (s : RoundRobin) (reason : StopReason)
    (hu : ∀ p, s.running_process = some p → s.init = false) :
    ∀ p, (s.stop reason).2.running_process = some p → (s.stop reason).2.init = false := by
  cases reason with
  | Expired =>
    intro p hp
    simp [RoundRobin.stop] at hp
  | Syscall sc remaining =>
    cases sc with
    | Fork prio =>
      cases hr : s.running_process with
      | some rp =>
        intro p _
        simpa [RoundRobin.stop, RoundRobin.generate_pid, hr] using hu rp hr
      | none =>
        intro p hp
        simp [RoundRobin.stop, RoundRobin.generate_pid, hr] at hp
    | Sleep n =>
      intro p hp
      simp [RoundRobin.stop] at hp
    | Wait e =>
      intro p hp
      simp [RoundRobin.stop] at hp
    | Signal e =>
      cases hr : s.running_process with
      | some rp =>
        intro p _
        simpa [RoundRobin.stop, hr] using hu rp hr
      | none =>
        intro p hp
        simp [RoundRobin.stop, hr] at hp
    | Exit =>
      intro p hp
      simp [RoundRobin.stop] at hp

/-- C9: in every state reachable through the `next`/`stop` protocol, a record
in the running slot implies the init-exited flag is clear — so the preemption
path of `next()`, which installs a new ready-head without consulting the
flag, can never skip over a pending `Panic`. -/
theorem C9_running_implies_init_clear (s : RoundRobin) (hreach : Reachable s) :
    ∀ p, s.running_process = some p → s.init = false := by
  induction hreach with
  | start t m =>
    intro p hp
    simp [RoundRobin.new] at hp
  | step_next s0 _ ih =>
    have hpre : ∀ q,
        ({ s0.increase_timings s0.sleep with sleep := 0 } : RoundRobin).running_process =
          some q →
        ({ s0.increase_timings s0.sleep with sleep := 0 } : RoundRobin).init = false := by
      intro q hq
      dsimp only at hq ⊢
      rw [RoundRobin.increase_timings_running_process] at hq
      rw [RoundRobin.increase_timings_init]
      exact ih q hq
    exact nextBody_preserves_inv _ hpre
  | step_stop s0 r _ ih =>
    exact stop_preserves_inv s0 r ih

/-- C9 witness: the invariant applied to the reachable state obtained by
bootstrapping PID 1 on `new(5, 2)` and scheduling it. -/
theorem C9_witness :
    ((((RoundRobin.new 5 2).stop (StopReason.Syscall (Syscall.Fork 0) 5)).2.next).2).init =
      false :=
  C9_running_implies_init_clear _
    (Reachable.step_next _ (Reachable.step_stop _ _ (Reachable.start 5 2)))
    { pid := 1, state := ProcessState.Running, timings := (0, 0, 0), priority := 0 }
    (by decide)

theorem mem_zeroIdxFrom_bound :
    ∀ (l : List Nat) (n j : Nat), j ∈ zeroIdxFrom n l → n ≤ j ∧ j - n < l.length := by
  intro l
  induction l with
  | nil => intro n j hj; simp [zeroIdxFrom] at hj
  | cons a rest ih =>
    intro n j hj
    simp only [zeroIdxFrom] at hj
    by_cases ha : a = 0
    · rw [if_pos ha] at hj
      rcases List.mem_cons.mp hj with rfl | hj2
      · simp
      · have := ih (n + 1) j hj2
        constructor <;> [omega; (simp only [List.length_cons]; omega)]
    · rw [if_neg ha] at hj
      have := ih (n + 1) j hj
      constructor <;> [omega; (simp only [List.length_cons]; omega)]

theorem mem_timedIdxFrom_bound :
    ∀ (w : List ProcessInfo) (n j : Nat), j ∈ timedIdxFrom n w → n ≤ j ∧ j - n < w.length := by
  intro w
  induction w with
  | nil => intro n j hj; simp [timedIdxFrom] at hj
  | cons p rest ih =>
    intro n j hj
    simp only [timedIdxFrom] at hj
    by_cases hp : isTimedSleeper p
    · rw [if_pos hp] at hj
      rcases List.mem_cons.mp hj with rfl | hj2
      · simp
      · have := ih (n + 1) j hj2
        constructor <;> [omega; (simp only [List.length_cons]; omega)]
    · simp only [Bool.not_eq_true] at hp
      simp only [hp, Bool.false_eq_true, if_false] at hj
      have := ih (n + 1) j hj
      constructor <;> [omega; (simp only [List.length_cons]; omega)]

theorem timedIdxFrom_length :
    ∀ (w : List ProcessInfo) (n : Nat),
      (timedIdxFrom n w).length = (w.filter isTimedSleeper).length := by
  intro w
  induction w with
  | nil => intro n; rfl
  | cons p rest ih =>
    intro n
    simp only [timedIdxFrom, List.filter_cons]
    by_cases hp : isTimedSleeper p
    · rw [if_pos hp, if_pos hp]
      simp [ih (n + 1)]
    · simp only [Bool.not_eq_true] at hp
      rw [hp]
      simp [ih (n + 1)]

theorem zeroIdxFrom_nil_mem :
    ∀ (l : List Nat) (n : Nat), zeroIdxFrom n l = [] → ∀ a ∈ l, a ≠ 0 := by
  intro l
  induction l with
  | nil => intro n _ a ha; simp at ha
  | cons b rest ih =>
    intro n hz a ha
    simp only [zeroIdxFrom] at hz
    by_cases hb : b = 0
    · rw [if_pos hb] at hz
      exact absurd hz (by simp)
    · rw [if_neg hb] at hz
      rcases List.mem_cons.mp ha with rfl | ha2
      · exact hb
      · exact ih (n + 1) hz a ha2

theorem minFrom_fst :
    ∀ (l : List Nat) (i : Nat) (acc : Nat × Nat),
      (minFrom i acc l).1 = acc.1 ∨ (minFrom i acc l).1 ∈ l := by
  intro l
  induction l with
  | nil => intro i acc; left; rfl
  | cons a rest ih =>
    intro i acc
    simp only [minFrom]
    by_cases ha : a < acc.1
    · rw [if_pos ha]
      rcases ih (i + 1) (a, i) with h1 | h2
      · right; rw [h1]; simp
      · right; exact List.mem_cons_of_mem _ h2
    · rw [if_neg ha]
      rcases ih (i + 1) acc with h1 | h2
      · left; exact h1
      · right; exact List.mem_cons_of_mem _ h2

theorem wakeFrom_ready_extend (procIdxs : List Nat) :
    ∀ (zs : List Nat) (iter : Nat) (s : RoundRobin),
      ∃ ext, (RoundRobin.wakeFrom procIdxs iter zs s).ready = s.ready ++ ext := by
  intro zs
  induction zs with
  | nil => intro iter s; exact ⟨[], by simp [RoundRobin.wakeFrom]⟩
  | cons i rest ih =>
    intro iter s
    simp only [RoundRobin.wakeFrom]
    obtain ⟨ext, hext⟩ := ih (iter + 1) (RoundRobin.wakeStep procIdxs s iter i)
    cases h1 : procIdxs[i - iter]? with
    | none =>
      refine ⟨ext, ?_⟩
      rw [hext]
      simp [RoundRobin.wakeStep, h1]
    | some index =>
      cases h2 : s.wait[index]? with
      | none =>
        refine ⟨ext, ?_⟩
        rw [hext]
        simp [RoundRobin.wakeStep, h1, h2]
      | some proc =>
        refine ⟨[{ proc with state := ProcessState.Ready }] ++ ext, ?_⟩
        rw [hext]
        simp [RoundRobin.wakeStep, h1, h2]

theorem increase_timings_ready_nil_no_zero (s : RoundRobin) (a : Nat)
    (hinv : s.sleep_amounts.length ≤ (s.wait.filter isTimedSleeper).length)
    (hready : (s.increase_timings a).ready = []) :
    ∀ b ∈ (s.increase_timings a).sleep_amounts, b ≠ 0 := by
  unfold RoundRobin.increase_timings at hready ⊢
  dsimp only at hready ⊢
  cases hz : zeroIdxFrom 0 (s.sleep_amounts.map (decSleep a)) with
  | nil =>
    rw [RoundRobin.wakeFrom]
    exact zeroIdxFrom_nil_mem _ 0 hz
  | cons i rest =>
    exfalso
    have hiL : i < (s.sleep_amounts.map (decSleep a)).length := by
      have hmem : i ∈ zeroIdxFrom 0 (s.sleep_amounts.map (decSleep a)) := by
        rw [hz]; simp
      have := mem_zeroIdxFrom_bound _ 0 i hmem
      omega
    have hcomp : (isTimedSleeper ∘ chargeTotal a) = isTimedSleeper := by
      funext q
      simp [Function.comp]
    have hfilter : ((s.wait.map (chargeTotal a)).filter isTimedSleeper).length =
        (s.wait.filter isTimedSleeper).length := by
      rw [List.filter_map, hcomp, List.length_map]
    have hlenP : (s.sleep_amounts.map (decSleep a)).length ≤
        (timedIdxFrom 0 (s.wait.map (chargeTotal a))).length := by
      rw [timedIdxFrom_length, hfilter, List.length_map]
      exact hinv
    cases hgp : (timedIdxFrom 0 (s.wait.map (chargeTotal a)))[i]? with
    | none =>
      rw [List.getElem?_eq_none_iff] at hgp
      omega
    | some index =>
      have hidx : index < (s.wait.map (chargeTotal a)).length := by
        have hmem : index ∈ timedIdxFrom 0 (s.wait.map (chargeTotal a)) := by
          obtain ⟨hlt2, heq⟩ := List.getElem?_eq_some_iff.mp hgp
          exact heq ▸ List.getElem_mem hlt2
        have := mem_timedIdxFrom_bound _ 0 index hmem
        omega
      cases hgw : (s.wait.map (chargeTotal a))[index]? with
      | none =>
        rw [List.getElem?_eq_none_iff] at hgw
        omega
      | some proc =>
        rw [hz] at hready
        rw [RoundRobin.wakeFrom] at hready
        obtain ⟨ext, hext⟩ := wakeFrom_ready_extend _ rest 1 _
        rw [hext] at hready
        simp only [RoundRobin.wakeStep, Nat.sub_zero, hgp, hgw] at hready
        simp at hready

theorem nextBody_sleep_inv (u r : RoundRobin) (m : Nat)
    (h : u.nextBody = (SchedulingDecision.Sleep m, r)) :
    u.running_process = none ∧ u.ready = [] ∧
      m = (minFrom 0 (usizeMax, 0) u.sleep_amounts).1 := by
  cases hr : u.running_process with
  | some rp =>
    by_cases hlt : u.remaining_running_time < u.minimum_remaining_timeslice
    · cases hq : u.ready ++ [{ rp with state := ProcessState.Ready }] with
      | nil => exact absurd hq (by simp)
      | cons a l => simp [RoundRobin.nextBody, hr, hlt, hq] at h
    · simp [RoundRobin.nextBody, hr, hlt] at h
  | none =>
    cases hq : u.ready with
    | cons a l =>
      by_cases hi : u.init
      · simp [RoundRobin.nextBody, hr, hq, hi] at h
      · simp [RoundRobin.nextBody, hr, hq, hi] at h
    | nil =>
      by_cases hwe : u.wait.isEmpty
      · simp [RoundRobin.nextBody, hr, hq, hwe] at h
      · by_cases hi : u.init
        · simp [RoundRobin.nextBody, hr, hq, hwe, hi] at h
        · by_cases hd : u.wait.all (fun p => ! isTimedSleeper p)
          · simp [RoundRobin.nextBody, hr, hq, hwe, hi, hd] at h
          · cases hg : u.wait[targetFrom
                (minFrom 0 (usizeMax, 0) u.sleep_amounts).2 0 0 u.wait]? with
            | some proc =>
              simp only [RoundRobin.nextBody, hr, hq, hwe, hi, hd, Bool.false_eq_true,
                if_false, hg] at h
              obtain ⟨h1, -⟩ := Prod.mk.injEq _ _ _ _ |>.mp h
              exact ⟨rfl, rfl, (SchedulingDecision.Sleep.injEq _ _ |>.mp h1).symm⟩
            | none =>
              simp [RoundRobin.nextBody, hr, hq, hwe, hi, hd, hg] at h

/-- C10: whenever `next()` returns a `Sleep` decision (from a state whose
sleep ledger is no longer than its timed-sleeper count), the returned amount
is at least 1: any ledger entry at zero is woken into the ready queue by the
preamble before the minimum is computed, so the `NonZeroUsize` construction
of the `Sleep` decision cannot fail. -/
theorem C10_sleep_amount_positive (s : RoundRobin) (m : Nat) (s' : RoundRobin)
    (hinv : s.sleep_amounts.length ≤ (s.wait.filter isTimedSleeper).length)
    (h : s.next = (SchedulingDecision.Sleep m, s')) : 1 ≤ m := by
  have h' : ({ s.increase_timings s.sleep with sleep := 0 } : RoundRobin).nextBody =
      (SchedulingDecision.Sleep m, s') := h
  obtain ⟨hrun, hready, hm⟩ := nextBody_sleep_inv _ _ _ h'
  dsimp only at hready hm
  have hnz := increase_timings_ready_nil_no_zero s s.sleep hinv hready
  rcases minFrom_fst (s.increase_timings s.sleep).sleep_amounts 0 (usizeMax, 0) with h1 | h2
  · rw [hm, h1]
    norm_num [usizeMax]
  · have := hnz _ h2
    omega

/-- C10 witness: applied to `sleepDemoState` (one timed sleeper, ledger entry
3), where `next()` returns `Sleep 3`. -/
theorem C10_witness :
    (sleepDemoState.next).1 = SchedulingDecision.Sleep 3 ∧ 1 ≤ 3 :=
  ⟨by decide,
    C10_sleep_amount_positive sleepDemoState 3 ((sleepDemoState.next).2)
      (by decide) (by decide)⟩

theorem minFrom_spec :
    ∀ (l : List Nat) (i : Nat) (acc : Nat × Nat),
      (minFrom i acc l = acc ∧ ∀ a ∈ l, acc.1 ≤ a) ∨
      (∃ j a, l[j]? = some a ∧ minFrom i acc l = (a, i + j) ∧ a < acc.1 ∧
        (∀ b ∈ l, a ≤ b) ∧
        (∀ j2 b, j2 < j → l[j2]? = some b → a < b)) := by
  intro l
  induction l with
  | nil =>
    intro i acc
    left
    exact ⟨rfl, by simp⟩
  | cons a rest ih =>
    intro i acc
    simp only [minFrom]
    by_cases ha : a < acc.1
    · rw [if_pos ha]
      rcases ih (i + 1) (a, i) with ⟨heq, hall⟩ | ⟨j, b, hget, heq, hlt, hmin, hstrict⟩
      · right
        refine ⟨0, a, by simp, ?_, ha, ?_, ?_⟩
        · rw [heq]
          simp
        · intro b hb
          rcases List.mem_cons.mp hb with rfl | hb2
          · exact le_refl _
          · exact hall b hb2
        · intro j2 b hj2 _
          omega
      · right
        refine ⟨j + 1, b, by simpa using hget, ?_, lt_trans hlt ha, ?_, ?_⟩
        · rw [heq]
          congr 1
          omega
        · intro c hc
          rcases List.mem_cons.mp hc with rfl | hc2
          · exact le_of_lt hlt
          · exact hmin c hc2
        · intro j2 c hj2 hgc
          cases j2 with
          | zero =>
            simp only [List.getElem?_cons_zero, Option.some.injEq] at hgc
            subst hgc
            exact hlt
          | succ j3 =>
            simp only [List.getElem?_cons_succ] at hgc
            exact hstrict j3 c (by omega) hgc
    · rw [if_neg ha]
      have hle : acc.1 ≤ a := le_of_not_lt ha
      rcases ih (i + 1) acc with ⟨heq, hall⟩ | ⟨j, b, hget, heq, hlt, hmin, hstrict⟩
      · left
        refine ⟨heq, ?_⟩
        intro b hb
        rcases List.mem_cons.mp hb with rfl | hb2
        · exact hle
        · exact hall b hb2
      · right
        refine ⟨j + 1, b, by simpa using hget, ?_, hlt, ?_, ?_⟩
        · rw [heq]
          congr 1
          omega
        · intro c hc
          rcases List.mem_cons.mp hc with rfl | hc2
          · exact le_trans (le_of_lt hlt) hle
          · exact hmin c hc2
        · intro j2 c hj2 hgc
          cases j2 with
          | zero =>
            simp only [List.getElem?_cons_zero, Option.some.injEq] at hgc
            subst hgc
            exact lt_of_lt_of_le hlt hle
          | succ j3 =>
            simp only [List.getElem?_cons_succ] at hgc
            exact hstrict j3 c (by omega) hgc

theorem targetFrom_spec :
    ∀ (w : List ProcessInfo) (i waitIdx k : Nat), waitIdx ≤ k →
      k - waitIdx < (w.filter isTimedSleeper).length →
      ∃ t p, targetFrom k i waitIdx w = i + t ∧ w[t]? = some p ∧
        isTimedSleeper p = true ∧
        ((w.take t).filter isTimedSleeper).length = k - waitIdx := by
  intro w
  induction w with
  | nil =>
    intro i waitIdx k _ hcount
    simp at hcount
  | cons p rest ih =>
    intro i waitIdx k hwk hcount
    by_cases hp : isTimedSleeper p
    · by_cases hw : waitIdx = k
      · refine ⟨0, p, ?_, by simp, hp, ?_⟩
        · simp [targetFrom, hp, hw]
        · simp [hw]
      · have hlt : waitIdx < k := lt_of_le_of_ne hwk hw
        have hcount2 : k - (waitIdx + 1) < (rest.filter isTimedSleeper).length := by
          rw [List.filter_cons, if_pos hp] at hcount
          simp only [List.length_cons] at hcount
          omega
        obtain ⟨t, q, heq, hget, htd, hcnt⟩ := ih (i + 1) (waitIdx + 1) k hlt hcount2
        refine ⟨t + 1, q, ?_, by simpa using hget, htd, ?_⟩
        · rw [show targetFrom k i waitIdx (p :: rest) =
              targetFrom k (i + 1) (waitIdx + 1) rest from by
            simp [targetFrom, hp, hw]]
          rw [heq]
          omega
        · rw [List.take_succ_cons, List.filter_cons, if_pos hp]
          simp only [List.length_cons, hcnt]
          omega
    · have hp2 : isTimedSleeper p = false := by simpa using hp
      have hcount2 : k - waitIdx < (rest.filter isTimedSleeper).length := by
        rw [List.filter_cons, hp2] at hcount
        simpa using hcount
      obtain ⟨t, q, heq, hget, htd, hcnt⟩ := ih (i + 1) waitIdx k hwk hcount2
      refine ⟨t + 1, q, ?_, by simpa using hget, htd, ?_⟩
      · rw [show targetFrom k i waitIdx (p :: rest) =
            targetFrom k (i + 1) waitIdx rest from by
          simp [targetFrom, hp2]]
        rw [heq]
        omega
      · rw [List.take_succ_cons, List.filter_cons, hp2]
        simpa using hcnt

/-- C7 (amended): whenever `next()` is called with no running process, an
empty ready queue, the init flag clear, and at least one timed sleeper in
wait — in a quiescent protocol state (no deferred wake, no zeroed or
out-of-usize-range ledger entry, ledger length matching the timed-sleeper
count) — it selects the timed sleeper with minimum remaining sleep (ties
broken by insertion order: entries before the chosen ledger index are
strictly larger, and the woken record is the k-th timed sleeper of the wait
queue), removes that sleeper from wait and its ledger entry, appends the
sleeper to ready, records the minimum as the deferred wake amount, and
returns `Sleep` of that minimum. -/
theorem C7_amended_sleep_selection (s : RoundRobin)
    (hrun : s.running_process = none) (hready : s.ready = []) (hinit : s.init = false)
    (hsleep : s.sleep = 0) (hnz : ∀ a ∈ s.sleep_amounts, a ≠ 0)
    (hbound : ∀ a ∈ s.sleep_amounts, a ≤ usizeMax)
    (hlen : s.sleep_amounts.length = (s.wait.filter isTimedSleeper).length)
    (hts : s.wait.any isTimedSleeper = true) :
    ∃ m k t w,
      s.sleep_amounts[k]? = some m ∧
      (∀ a ∈ s.sleep_amounts, m ≤ a) ∧
      (∀ j a, j < k → s.sleep_amounts[j]? = some a → m < a) ∧
      s.wait[t]? = some w ∧ isTimedSleeper w = true ∧
      ((s.wait.take t).filter isTimedSleeper).length = k ∧
      s.next = (SchedulingDecision.Sleep m,
        { s with
          running_process := none
          wait := s.wait.eraseIdx t
          sleep_amounts := s.sleep_amounts.eraseIdx k
          ready := [w]
          sleep := m }) := by
  have hwne : s.wait ≠ [] := by
    rcases List.any_eq_true.mp hts with ⟨p, hp, -⟩
    exact List.ne_nil_of_mem hp
  have hLne : s.sleep_amounts ≠ [] := by
    intro hnil
    rw [hnil] at hlen
    rcases List.any_eq_true.mp hts with ⟨p, hp, hptd⟩
    have : p ∈ s.wait.filter isTimedSleeper := List.mem_filter.mpr ⟨hp, hptd⟩
    have hpos := List.length_pos.mpr (List.ne_nil_of_mem this)
    simp at hlen
    omega
  -- the selected minimum
  have hmk : ∃ m k, minFrom 0 (usizeMax, 0) s.sleep_amounts = (m, k) ∧
      s.sleep_amounts[k]? = some m ∧ (∀ a ∈ s.sleep_amounts, m ≤ a) ∧
      (∀ j a, j < k → s.sleep_amounts[j]? = some a → m < a) := by
    rcases minFrom_spec s.sleep_amounts 0 (usizeMax, 0) with
      ⟨heq, hall⟩ | ⟨j, b, hget, heq, -, hmin, hstrict⟩
    · obtain ⟨c, cs, hc⟩ := List.exists_cons_of_ne_nil hLne
      have hcu : c = usizeMax :=
        le_antisymm (hbound c (by rw [hc]; simp)) (hall c (by rw [hc]; simp))
      refine ⟨usizeMax, 0, heq, ?_, hall, by omega⟩
      rw [hc, hcu]
      simp
    · refine ⟨b, j, by simpa using heq, hget, hmin, hstrict⟩
  obtain ⟨m, k, hpair, hgetk, hmin, hstrict⟩ := hmk
  -- the selected sleeper
  have hkc : k < (s.wait.filter isTimedSleeper).length := by
    rcases List.getElem?_eq_some_iff.mp hgetk with ⟨h1, -⟩
    omega
  obtain ⟨t, w, hteq, hgett, htd, hcnt⟩ := targetFrom_spec s.wait 0 0 k (by omega)
    (by simpa using hkc)
  rw [Nat.zero_add] at hteq
  refine ⟨m, k, t, w, hgetk, hmin, hstrict, hgett, htd, by simpa using hcnt, ?_⟩
  rw [show s.next =
      RoundRobin.nextBody ({ s.increase_timings s.sleep with sleep := 0 } : RoundRobin)
    from rfl]
  rw [preamble_eq s hsleep hnz]
  have hwe : s.wait.isEmpty = false := by
    cases hc : s.wait with
    | nil => exact absurd hc hwne
    | cons a l => rfl
  have hd : s.wait.all (fun p => ! isTimedSleeper p) = false := by
    rcases List.any_eq_true.mp hts with ⟨p, hp, hptd⟩
    exact List.all_eq_false.mpr ⟨p, hp, by simp [hptd]⟩
  simp only [RoundRobin.nextBody, hrun, hready, hwe, hinit, hd, Bool.false_eq_true,
    if_false, hpair, hteq, hgett]
  simp

/-- C7 witness: the amended theorem applied to `sleepDemoState` (one timed
sleeper with ledger entry 3). -/
theorem C7_witness :
    ∃ m k t w,
      sleepDemoState.sleep_amounts[k]? = some m ∧
      (∀ a ∈ sleepDemoState.sleep_amounts, m ≤ a) ∧
      (∀ j a, j < k → sleepDemoState.sleep_amounts[j]? = some a → m < a) ∧
      sleepDemoState.wait[t]? = some w ∧ isTimedSleeper w = true ∧
      ((sleepDemoState.wait.take t).filter isTimedSleeper).length = k ∧
      sleepDemoState.next = (SchedulingDecision.Sleep m,
        { sleepDemoState with
          running_process := none
          wait := sleepDemoState.wait.eraseIdx t
          sleep_amounts := sleepDemoState.sleep_amounts.eraseIdx k
          ready := [w]
          sleep := m }) :=
  C7_amended_sleep_selection sleepDemoState rfl rfl rfl rfl (by decide) (by decide)
    (by decide) (by decide)

/-- C5 counterexample. From the reachable state `c5State` (PID 1 exited while
PID 2 is ready), `next()` returns the terminal decision `Panic`, but calling
`next()` again returns `Run 2 5`, not `Panic`: the init flag is consumed. -/
theorem C5_counterexample :
    (c5State.next).1 = SchedulingDecision.Panic ∧
    ((c5State.next).2.next).1 = SchedulingDecision.Run 2 5 ∧
    ((c5State.next).2.next).1 ≠ SchedulingDecision.Panic := by
  decide

/-- C7 counterexample. The reachable state `c7State` satisfies all the
claim's conditions (no running process, empty ready queue, a timed sleeper in
wait with ledger entry 8) — yet `next()` returns `Panic`, not `Sleep 8`,
because the init-exited flag is checked first. -/
theorem C7_counterexample :
    c7State.running_process = none ∧
    c7State.ready = [] ∧
    c7State.wait.any isTimedSleeper = true ∧
    c7State.sleep_amounts = [8] ∧
    (c7State.next).1 = SchedulingDecision.Panic ∧
    (c7State.next).1 ≠ SchedulingDecision.Sleep 8 := by
  decide

end Sched
